import Mathlib

/-!  Shallow embedding of the buffer engine of a small terminal text editor
(`src/buffer.rs`).  Machine integers (`usize`) are modelled as `Nat` and
`isize` arithmetic as `Int`; a `usize` subtraction, vector index or
`unreachable!` that can panic is modelled by an `Option` result
(`none` = panic).  File-system effects are modelled by an explicit oracle. -/

/-- Representation of a line of text; `start` and `end_` are inclusive
character offsets (`end_` models the Rust field `end`, which points at the
terminating newline, or at the last index when the line is unterminated). -/
structure Line where
  start : Nat
  end_ : Nat
deriving DecidableEq, Repr

/-- Rust `Line::len`: `self.end - self.start + 1`; the `usize` subtraction
panics when `start > end`, modelled by `none`. -/
def Line.len (l : Line) : Option Nat :=
  if l.start ≤ l.end_ then some (l.end_ - l.start + 1) else none

/-- Characters of `data` covered by the inclusive span `l` (the slice
`data[l.start ..= l.end_]`, empty for a degenerate span with
`end_ + 1 ≤ start`). -/
def Line.covered (l : Line) (data : List Char) : List Char :=
  (data.drop l.start).take (l.end_ + 1 - l.start)

/-- The buffer state (Rust `struct Buffer`); the two colors are
rendering-only constants and are omitted. -/
structure Buffer where
  data : List Char
  lines : List Line
  x : Nat
  y : Nat
  width : Nat
  height : Nat
  offset_y : Nat
  offset_x : Nat
  cursor_pos : Nat
  previous_offset : Option Nat
  file_path : Option String
deriving DecidableEq

/-- Loop of `Buffer::recalculate_lines`: scanning the remaining characters,
`i` being the index of the first of them and `prev` the current value of
`previous_begining`, returns the spans pushed for each newline found,
together with the final value of `previous_begining`. -/
def linesLoop : List Char → Nat → Nat → List Line × Nat
  | [], _, prev => ([], prev)
  | c :: rest, i, prev =>
    if c = '\n' then
      let r := linesLoop rest (i + 1) (i + 1)
      (⟨prev, i⟩ :: r.1, r.2)
    else
      linesLoop rest (i + 1) prev

/-- Rust `Buffer::recalculate_lines` as a pure function of the data: the
spans closed at each newline followed by the final span, whose `end` is
`data.len() - 1` for non-empty data and `0` otherwise. -/
def recalcLines (data : List Char) : List Line :=
  (linesLoop data 0 0).1 ++
    [⟨(linesLoop data 0 0).2, if data.length < 1 then 0 else data.length - 1⟩]

def Buffer.recalculate_lines (b : Buffer) : Buffer :=
  { b with lines := recalcLines b.data }

/-- Loop of `Buffer::current_line`: returns the running count `acc` at the
first span containing `pos`; `none` models reaching the `unreachable!`. -/
def currentLineAux : List Line → Nat → Nat → Option Nat
  | [], _, _ => none
  | l :: rest, pos, acc =>
    if l.start ≤ pos ∧ pos ≤ l.end_ then some acc
    else currentLineAux rest pos (acc + 1)

/-- Rust `Buffer::current_line`; `none` models the `unreachable!` panic. -/
def Buffer.current_line (b : Buffer) : Option Nat :=
  currentLineAux b.lines b.cursor_pos 0

/-- Loop of `Buffer::cursor_xy`: returns the first span containing `pos`
together with the value of the running `y` counter at that span. -/
def findLineY : List Line → Nat → Int → Option (Line × Int)
  | [], _, _ => none
  | l :: rest, pos, yAcc =>
    if l.start ≤ pos ∧ pos ≤ l.end_ then some (l, yAcc)
    else findLineY rest pos (yAcc + 1)

/-- Rust `Buffer::cursor_xy` (all coordinate arithmetic is `isize`);
`none` models the `.expect` panic on an empty line list. -/
def Buffer.cursor_xy (b : Buffer) : Option (Int × Int) :=
  match findLineY b.lines b.cursor_pos 0 with
  | some (l, yAcc) =>
      some ((b.cursor_pos : Int) - (l.start : Int) - (b.offset_x : Int) + (b.x : Int),
            yAcc - (b.offset_y : Int) + (b.y : Int))
  | none =>
      match b.lines.getLast? with
      | none => none
      | some last =>
          some ((last.end_ : Int) - (last.start : Int) + 1 + (b.x : Int),
                (b.lines.length : Int) - 1 - (b.offset_y : Int) + (b.y : Int))

/-- Rust `Buffer::move_cursor_right`. -/
def Buffer.move_cursor_right (b : Buffer) (dx : Nat) : Buffer :=
  let b1 := if b.cursor_pos + dx ≤ b.data.length
            then { b with cursor_pos := b.cursor_pos + dx } else b
  { b1 with previous_offset := none }

/-- Rust `Buffer::move_cursor_left`. -/
def Buffer.move_cursor_left (b : Buffer) (dx : Nat) : Buffer :=
  let b1 := if dx ≤ b.cursor_pos
            then { b with cursor_pos := b.cursor_pos - dx } else b
  { b1 with previous_offset := none }

/-- Rust `Buffer::move_cursor_up`; `none` models a panic (the
`unreachable!` inside `current_line`, an out-of-bounds index, or a `usize`
underflow). -/
def Buffer.move_cursor_up (b : Buffer) (dy : Nat) : Option Buffer :=
  match b.current_line with
  | none => none
  | some cur =>
    if dy ≤ cur then
      match b.lines[cur]? with
      | none => none
      | some line =>
        match (match b.previous_offset with
               | some off => some off
               | none =>
                 if line.start ≤ b.cursor_pos
                 then some (b.cursor_pos - line.start) else none) with
        | none => none
        | some xOff =>
          match b.lines[cur - dy]? with
          | none => none
          | some line2 =>
            match line2.len with
            | none => none
            | some len2 =>
              if len2 ≤ xOff then
                some { b with previous_offset := some xOff,
                              cursor_pos := line2.start + (len2 - 1) }
              else
                some { b with cursor_pos := line2.start + xOff }
    else some b

/-- Rust `Buffer::move_cursor_down`; `none` models a panic as in
`move_cursor_up`. -/
def Buffer.move_cursor_down (b : Buffer) (dy : Nat) : Option Buffer :=
  match b.current_line with
  | none => none
  | some cur =>
    if cur + dy < b.lines.length then
      match b.lines[cur]? with
      | none => none
      | some line =>
        match (match b.previous_offset with
               | some off => some off
               | none =>
                 if line.start ≤ b.cursor_pos
                 then some (b.cursor_pos - line.start) else none) with
        | none => none
        | some xOff =>
          match b.lines[cur + dy]? with
          | none => none
          | some line2 =>
            match line2.len with
            | none => none
            | some len2 =>
              if len2 ≤ xOff then
                some { b with previous_offset := some xOff,
                              cursor_pos := line2.start + (len2 - 1) }
              else
                some { b with cursor_pos := line2.start + xOff }
    else some b

/-- Rust `Buffer::scroll`; `none` models the `assert!` failure on the `y`
axis or the unguarded `usize` underflow of `offset_x` on the `x` axis. -/
def Buffer.scroll (b : Buffer) : Option Buffer :=
  match b.cursor_xy with
  | none => none
  | some (cx, cy) =>
    let yRel := cy - (b.y : Int)
    let xRel := cx - (b.x : Int)
    let step1 : Option Buffer :=
      if yRel < 0 then
        if (-yRel).toNat ≤ b.offset_y
        then some { b with offset_y := b.offset_y - (-yRel).toNat } else none
      else if (b.height : Int) ≤ yRel then
        some { b with offset_y := b.offset_y + (yRel - (b.height : Int) + 1).toNat }
      else some b
    match step1 with
    | none => none
    | some b1 =>
      if xRel < 0 then
        if (-xRel).toNat ≤ b1.offset_x
        then some { b1 with offset_x := b1.offset_x - (-xRel).toNat } else none
      else if (b.width : Int) ≤ xRel then
        some { b1 with offset_x := b1.offset_x + (xRel - (b.width : Int) + 1).toNat }
      else some b1

/-- Total functional form of the offset adjustment performed by `scroll`
for cursor screen coordinates `(cx, cy)`, used to state and prove that
`scroll` never panics: each offset moves by the minimal amount putting the
relative coordinate back into the viewport. -/
def scrollTotal (b : Buffer) (cx cy : Int) : Buffer :=
  let yRel := cy - (b.y : Int)
  let xRel := cx - (b.x : Int)
  { b with
    offset_y :=
      if yRel < 0 then b.offset_y - (-yRel).toNat
      else if (b.height : Int) ≤ yRel then
        b.offset_y + (yRel - (b.height : Int) + 1).toNat
      else b.offset_y,
    offset_x :=
      if xRel < 0 then b.offset_x - (-xRel).toNat
      else if (b.width : Int) ≤ xRel then
        b.offset_x + (xRel - (b.width : Int) + 1).toNat
      else b.offset_x }

/-- Rust `Vec::remove(i)` on the data: panics (`none`) when `i` is out of
bounds, otherwise removes the element at index `i`. -/
def removeAt (l : List Char) (i : Nat) : Option (List Char) :=
  if i < l.length then some (l.take i ++ l.drop (i + 1)) else none

/-- Rust `Buffer::insert_ch`: `Vec::insert` panics (`none`) when
`cursor_pos > data.len()`. -/
def Buffer.insert_ch (b : Buffer) (ch : Char) : Option Buffer :=
  if b.cursor_pos ≤ b.data.length then
    some { b with
           data := b.data.take b.cursor_pos ++ ch :: b.data.drop b.cursor_pos,
           cursor_pos := b.cursor_pos + 1 }
  else none

/-- Rust `Buffer::backspace`: `cursor_pos -= 1` underflows (`none`) at
`cursor_pos == 0`, then `Vec::remove` at the new position. -/
def Buffer.backspace (b : Buffer) : Option Buffer :=
  if 1 ≤ b.cursor_pos then
    match removeAt b.data (b.cursor_pos - 1) with
    | none => none
    | some d => some { b with cursor_pos := b.cursor_pos - 1, data := d }
  else none

/-- Rust `Buffer::delete`: `Vec::remove` at `cursor_pos` panics (`none`)
when `cursor_pos ≥ data.len()`. -/
def Buffer.delete (b : Buffer) : Option Buffer :=
  match removeAt b.data b.cursor_pos with
  | none => none
  | some d => some { b with data := d }

/-- Rust `Buffer::save`: `some (path, contents)` is the write performed,
`none` means no write happens at all. -/
def Buffer.save (b : Buffer) : Option (String × List Char) :=
  match b.file_path with
  | some p => some (p, b.data)
  | none => none

/-- Oracle for the file-system checks made by `Buffer::from_file`:
`file content` is a path for which `is_file()` holds, with `content` the
result of `fs::read` (`none` = read error); `dir` is an existing
directory; `other` is any other path (nonexistent, or invalid). -/
inductive PathStatus where
  | file (content : Option (List (Fin 256))) : PathStatus
  | dir : PathStatus
  | other : PathStatus

/-- Rust `Buffer::from_file`, parameterised by the file-system oracle:
bytes are cast to chars, carriage returns are filtered out, and the line
index is recalculated. -/
def Buffer.from_file (fs : PathStatus) (filename : String)
    (x y width height : Nat) : Buffer :=
  let dp : List Char × Option String :=
    match fs with
    | .file (some bytes) =>
        ((bytes.map fun bt => Char.ofNat bt.val).filter fun c => c ≠ '\r',
         some filename)
    | .file none => ([], some filename)
    | .dir => ([], none)
    | .other => ([], some filename)
  Buffer.recalculate_lines
    { data := dp.1, lines := [], x := x, y := y, width := width,
      height := height, offset_y := 0, offset_x := 0, cursor_pos := 0,
      previous_offset := none, file_path := dp.2 }

/-- Buffer with a freshly recalculated line index, used for concrete
instances in the theorems below. -/
def mkBuffer (data : List Char) (cursor x y w h ox oy : Nat) : Buffer :=
  { data := data, lines := recalcLines data, x := x, y := y, width := w,
    height := h, offset_y := oy, offset_x := ox, cursor_pos := cursor,
    previous_offset := none, file_path := none }

/-! ### Lemmas about the scanning loops -/

/-- When `findLineY` succeeds it returns the first span containing `pos`,
together with its index offset by the initial counter value. -/
theorem findLineY_spec :
    ∀ (lines : List Line) (pos : Nat) (y0 : Int) (l : Line) (yv : Int),
    findLineY lines pos y0 = some (l, yv) →
    ∃ k : Nat, yv = y0 + k ∧ lines[k]? = some l ∧ l.start ≤ pos ∧ pos ≤ l.end_ ∧
      ∀ j lj, j < k → lines[j]? = some lj →
        ¬(lj.start ≤ pos ∧ pos ≤ lj.end_) := by
  intro lines
  induction lines with
  | nil => intro pos y0 l yv h; simp [findLineY] at h
  | cons l0 rest ih =>
    intro pos y0 l yv h
    by_cases hc : l0.start ≤ pos ∧ pos ≤ l0.end_
    · simp [findLineY, hc] at h
      obtain ⟨rfl, rfl⟩ := h
      exact ⟨0, by simp, by simp, hc.1, hc.2, by omega⟩
    · simp [findLineY, hc] at h
      obtain ⟨k, hk, hget, h1, h2, hmin⟩ := ih pos (y0 + 1) l yv h
      refine ⟨k + 1, by push_cast; omega, by simpa using hget, h1, h2, ?_⟩
      intro j lj hj hgj
      match j with
      | 0 => simp at hgj; subst hgj; exact hc
      | j + 1 =>
        simp at hgj
        exact hmin j lj (by omega) hgj

/-- Converse construction: if `pos` is contained in the span at index `j`
and in no earlier span, `findLineY` finds exactly that span. -/
theorem findLineY_of :
    ∀ (lines : List Line) (pos : Nat) (y0 : Int) (j : Nat) (l : Line),
    lines[j]? = some l → l.start ≤ pos → pos ≤ l.end_ →
    (∀ m lm, m < j → lines[m]? = some lm →
      ¬(lm.start ≤ pos ∧ pos ≤ lm.end_)) →
    findLineY lines pos y0 = some (l, y0 + j) := by
  intro lines
  induction lines with
  | nil => intro pos y0 j l hget; simp at hget
  | cons l0 rest ih =>
    intro pos y0 j l hget h1 h2 hmin
    match j with
    | 0 =>
      simp at hget
      subst hget
      simp [findLineY, h1, h2]
    | j + 1 =>
      simp at hget
      have hne : ¬(l0.start ≤ pos ∧ pos ≤ l0.end_) := hmin 0 l0 (by omega) (by simp)
      have := ih pos (y0 + 1) j l hget h1 h2
        (fun m lm hm hgm => hmin (m + 1) lm (by omega) (by simpa using hgm))
      simp [findLineY, hne, this]
      omega

/-- When `currentLineAux` succeeds it returns the index (offset by the
accumulator) of the first span containing `pos`. -/
theorem currentLineAux_spec :
    ∀ (lines : List Line) (pos acc k : Nat),
    currentLineAux lines pos acc = some k →
    ∃ j : Nat, k = acc + j ∧ ∃ l, lines[j]? = some l ∧
      l.start ≤ pos ∧ pos ≤ l.end_ ∧
      ∀ m lm, m < j → lines[m]? = some lm →
        ¬(lm.start ≤ pos ∧ pos ≤ lm.end_) := by
  intro lines
  induction lines with
  | nil => intro pos acc k h; simp [currentLineAux] at h
  | cons l0 rest ih =>
    intro pos acc k h
    by_cases hc : l0.start ≤ pos ∧ pos ≤ l0.end_
    · simp [currentLineAux, hc] at h
      exact ⟨0, by omega, l0, by simp, hc.1, hc.2, by omega⟩
    · simp [currentLineAux, hc] at h
      obtain ⟨j, hj, l, hget, h1, h2, hmin⟩ := ih pos (acc + 1) k h
      refine ⟨j + 1, by omega, l, by simpa using hget, h1, h2, ?_⟩
      intro m lm hm hgm
      match m with
      | 0 => simp at hgm; subst hgm; exact hc
      | m + 1 =>
        simp at hgm
        exact hmin m lm (by omega) hgm

/-- Converse construction for `currentLineAux`. -/
theorem currentLineAux_of :
    ∀ (lines : List Line) (pos acc j : Nat) (l : Line),
    lines[j]? = some l → l.start ≤ pos → pos ≤ l.end_ →
    (∀ m lm, m < j → lines[m]? = some lm →
      ¬(lm.start ≤ pos ∧ pos ≤ lm.end_)) →
    currentLineAux lines pos acc = some (acc + j) := by
  intro lines
  induction lines with
  | nil => intro pos acc j l hget; simp at hget
  | cons l0 rest ih =>
    intro pos acc j l hget h1 h2 hmin
    match j with
    | 0 =>
      simp at hget
      subst hget
      simp [currentLineAux, h1, h2]
    | j + 1 =>
      simp at hget
      have hne : ¬(l0.start ≤ pos ∧ pos ≤ l0.end_) := hmin 0 l0 (by omega) (by simp)
      have := ih pos (acc + 1) j l hget h1 h2
        (fun m lm hm hgm => hmin (m + 1) lm (by omega) (by simpa using hgm))
      simp [currentLineAux, hne, this]
      omega

/-- If every span ends strictly before `pos`, the scan of
`Buffer::current_line` falls through to the `unreachable!`. -/
theorem currentLineAux_none :
    ∀ (lines : List Line) (pos acc : Nat),
    (∀ l ∈ lines, l.end_ < pos) → currentLineAux lines pos acc = none := by
  intro lines
  induction lines with
  | nil => intro pos acc _; rfl
  | cons l0 rest ih =>
    intro pos acc h
    have h0 : l0.end_ < pos := h l0 (by simp)
    have hne : ¬(l0.start ≤ pos ∧ pos ≤ l0.end_) := by omega
    simp [currentLineAux, hne]
    exact ih pos (acc + 1) (fun l hl => h l (by simp [hl]))

/-! ### Lemmas about the line index -/

/-- The final value of `previous_begining` never exceeds the index just
past the scanned region. -/
theorem linesLoop_snd_le :
    ∀ (rest : List Char) (i prev : Nat), prev ≤ i →
    (linesLoop rest i prev).2 ≤ i + rest.length := by
  intro rest
  induction rest with
  | nil => intro i prev h; simpa [linesLoop] using h
  | cons c rest ih =>
    intro i prev h
    by_cases hc : c = '\n'
    · simp only [linesLoop, if_pos hc]
      have := ih (i + 1) (i + 1) (le_refl _)
      simpa using by omega
    · simp only [linesLoop, if_neg hc]
      have := ih (i + 1) prev (by omega)
      simpa using by omega

/-- Every span pushed during the scan ends strictly before the end of the
scanned region. -/
theorem linesLoop_end_lt :
    ∀ (rest : List Char) (i prev : Nat),
    ∀ l ∈ (linesLoop rest i prev).1, l.end_ < i + rest.length := by
  intro rest
  induction rest with
  | nil => intro i prev l hl; simp [linesLoop] at hl
  | cons c rest ih =>
    intro i prev l hl
    by_cases hc : c = '\n'
    · simp only [linesLoop, if_pos hc] at hl
      simp only [List.mem_cons] at hl
      rcases hl with rfl | hl
      · show i < i + (c :: rest).length
        simp only [List.length_cons]
        omega
      · have := ih (i + 1) (i + 1) l hl
        simp at this ⊢; omega
    · simp only [linesLoop, if_neg hc] at hl
      have := ih (i + 1) prev l hl
      simp at this ⊢; omega

/-- Concatenating the characters covered by the spans pushed while
scanning the suffix `data.drop i`, followed by the characters from the
final value of `previous_begining`, yields all characters from `prev` on. -/
theorem linesLoop_covered (data : List Char) :
    ∀ (rest : List Char) (i prev : Nat),
    rest = data.drop i → prev ≤ i →
    ((linesLoop rest i prev).1.map (fun l => l.covered data)).flatten
      ++ data.drop (linesLoop rest i prev).2 = data.drop prev := by
  intro rest
  induction rest with
  | nil =>
    intro i prev hrest _
    simp only [linesLoop, List.map_nil, List.flatten_nil, List.nil_append]
  | cons c rest ih =>
    intro i prev hrest hprev
    have hi : i < data.length := by
      by_contra hge
      rw [List.drop_eq_nil_of_le (by omega)] at hrest
      exact List.cons_ne_nil c rest hrest
    have hrest1 : rest = data.drop (i + 1) := by
      rw [← List.drop_drop 1 i data, ← hrest]
      rfl
    by_cases hc : c = '\n'
    · simp only [linesLoop, if_pos hc, List.map_cons, List.flatten_cons,
        List.append_assoc]
      rw [ih (i + 1) (i + 1) hrest1 (le_refl _)]
      show Line.covered ⟨prev, i⟩ data ++ data.drop (i + 1) = data.drop prev
      unfold Line.covered
      simp only
      have h1 : data.drop (i + 1) = (data.drop prev).drop (i + 1 - prev) := by
        rw [List.drop_drop]
        congr 1
        omega
      rw [h1, List.take_append_drop]
    · simp only [linesLoop, if_neg hc]
      exact ih (i + 1) prev hrest1 (by omega)

/-- The line index is never empty: a final span is always appended. -/
theorem recalcLines_ne_nil (data : List Char) : recalcLines data ≠ [] := by
  simp [recalcLines]

/-- The final span of the recalculated index starts no later than one past
its (inclusive) end, so its covered slice is well defined (possibly empty). -/
theorem recalcLines_last_ok (data : List Char) :
    ∃ p e, (recalcLines data).getLast? = some ⟨p, e⟩ ∧ p ≤ e + 1 ∧
      e = (if data.length < 1 then 0 else data.length - 1) := by
  refine ⟨(linesLoop data 0 0).2, _, by simp [recalcLines, List.getLast?_concat], ?_, rfl⟩
  have hple : (linesLoop data 0 0).2 ≤ data.length := by
    simpa using linesLoop_snd_le data 0 0 (le_refl 0)
  rcases Nat.eq_zero_or_pos data.length with hlen | hlen
  · have hdata : data = [] := List.length_eq_zero.mp hlen
    subst hdata
    simp [linesLoop]
  · have : ¬(data.length < 1) := by omega
    rw [if_neg this]
    omega

/-- For non-empty data every span of the recalculated index ends strictly
before `data.length`, so no span contains the position `data.length`. -/
theorem recalcLines_end_lt (data : List Char) (h : data ≠ []) :
    ∀ l ∈ recalcLines data, l.end_ < data.length := by
  intro l hl
  have hlen : 0 < data.length := List.length_pos.mpr h
  unfold recalcLines at hl
  rw [List.mem_append] at hl
  rcases hl with hl | hl
  · simpa using linesLoop_end_lt data 0 0 l hl
  · simp only [List.mem_singleton] at hl
    subst hl
    simp only
    rw [if_neg (by omega)]
    omega

/-! ### Claim theorems -/

/-- C6: `recalculate_lines` closes a span `[previous_start, i]` at each
newline index `i` and appends a final span whose end is `len(data) - 1`
for non-empty data (degenerate span otherwise), and concatenating the
characters covered by the resulting spans in order reproduces the original
sequence exactly. -/
theorem c6_recalc_lines_roundtrip (data : List Char) :
    ((recalcLines data).map (fun l => l.covered data)).flatten = data ∧
    ∃ lastSpan : Line, (recalcLines data).getLast? = some lastSpan ∧
      lastSpan.end_ = (if data.length < 1 then 0 else data.length - 1) := by
  constructor
  · have hmain := linesLoop_covered data data 0 0 rfl (le_refl 0)
    have hple : (linesLoop data 0 0).2 ≤ data.length := by
      simpa using linesLoop_snd_le data 0 0 (le_refl 0)
    unfold recalcLines
    rw [List.map_append, List.flatten_append]
    simp only [List.map_cons, List.map_nil, List.flatten_cons,
      List.flatten_nil, List.append_nil]
    rcases Nat.eq_zero_or_pos data.length with hlen | hlen
    · have hdata : data = [] := List.length_eq_zero.mp hlen
      subst hdata
      simp [linesLoop, Line.covered]
    · rw [if_neg (by omega)]
      have hcov : Line.covered ⟨(linesLoop data 0 0).2, data.length - 1⟩ data
          = data.drop (linesLoop data 0 0).2 := by
        unfold Line.covered
        simp only
        apply List.take_of_length_le
        rw [List.length_drop]
        omega
      rw [hcov]
      simpa using hmain
  · refine ⟨⟨(linesLoop data 0 0).2,
      if data.length < 1 then 0 else data.length - 1⟩, ?_, rfl⟩
    unfold recalcLines
    exact List.getLast?_concat _

/-- C1: for every non-empty buffer whose line index was recomputed from its
data, the legal cursor position `cursor_pos = len(data)` (end of buffer,
reachable through `move_cursor_right`) is contained in no line span, so
`current_line` falls through its scan and hits the `unreachable!` panic
(`none`) instead of resolving to the last line as the specification
requires. -/
theorem c1_current_line_end_of_buffer_panics (b : Buffer)
    (hlines : b.lines = recalcLines b.data) (hne : b.data ≠ [])
    (hcursor : b.cursor_pos = b.data.length) :
    b.current_line = none := by
  unfold Buffer.current_line
  rw [hlines, hcursor]
  exact currentLineAux_none _ _ _ (recalcLines_end_lt b.data hne)

/-- Witness for C1: the two-character buffer `"ab"` with the cursor at the
end of the data (position 2) makes `current_line` hit the unreachable
branch. -/
theorem c1_witness :
    (mkBuffer ['a', 'b'] 2 0 0 4 4 0 0).current_line = none :=
  c1_current_line_end_of_buffer_panics (mkBuffer ['a', 'b'] 2 0 0 4 4 0 0)
    rfl (by decide) (by decide)

/-- C2: the specification requires `backspace` at `cursor_pos = 0` and
`delete` at `cursor_pos = len(data)` to be guarded no-ops; the code has no
guard: `backspace` underflows `cursor_pos -= 1` and `delete` calls
`Vec::remove` out of bounds, both panics (`none`).  Away from the
boundary the operations do behave as described: `backspace` decrements the
cursor and removes the character at the new position, `delete` removes the
character at the cursor without moving it. -/
theorem c2_backspace_delete_boundary (b : Buffer) :
    (b.cursor_pos = 0 → b.backspace = none) ∧
    (b.cursor_pos = b.data.length → b.delete = none) ∧
    (∀ bb, b.backspace = some bb →
      bb.cursor_pos = b.cursor_pos - 1 ∧
      bb.data = b.data.take (b.cursor_pos - 1) ++ b.data.drop b.cursor_pos ∧
      1 ≤ b.cursor_pos ∧ b.cursor_pos - 1 < b.data.length) ∧
    (∀ bb, b.delete = some bb →
      bb.cursor_pos = b.cursor_pos ∧
      bb.data = b.data.take b.cursor_pos ++ b.data.drop (b.cursor_pos + 1) ∧
      b.cursor_pos < b.data.length) := by
  refine ⟨?_, ?_, ?_, ?_⟩
  · intro h
    simp [Buffer.backspace, h]
  · intro h
    simp [Buffer.delete, removeAt, h]
  · intro bb hbb
    unfold Buffer.backspace removeAt at hbb
    by_cases h1 : 1 ≤ b.cursor_pos
    · rw [if_pos h1] at hbb
      by_cases h2 : b.cursor_pos - 1 < b.data.length
      · rw [if_pos h2] at hbb
        simp only [Option.some.injEq] at hbb
        subst hbb
        refine ⟨rfl, ?_, h1, h2⟩
        show b.data.take (b.cursor_pos - 1) ++ b.data.drop (b.cursor_pos - 1 + 1)
            = b.data.take (b.cursor_pos - 1) ++ b.data.drop b.cursor_pos
        have harith : b.cursor_pos - 1 + 1 = b.cursor_pos := by omega
        rw [harith]
      · rw [if_neg h2] at hbb
        simp at hbb
    · rw [if_neg h1] at hbb
      simp at hbb
  · intro bb hbb
    unfold Buffer.delete removeAt at hbb
    by_cases h2 : b.cursor_pos < b.data.length
    · rw [if_pos h2] at hbb
      simp only [Option.some.injEq] at hbb
      subst hbb
      exact ⟨rfl, rfl, h2⟩
    · rw [if_neg h2] at hbb
      simp at hbb

/-- Witness for C2: on the one-character buffer `"a"`, `backspace` with the
cursor at 0 panics, `delete` with the cursor at the end (1) panics, and
away from the boundary both behave as described. -/
theorem c2_witness :
    (mkBuffer ['a'] 0 0 0 4 4 0 0).backspace = none ∧
    (mkBuffer ['a'] 1 0 0 4 4 0 0).delete = none ∧
    (∀ bb, (mkBuffer ['a'] 1 0 0 4 4 0 0).backspace = some bb →
      bb.cursor_pos = 0) :=
  ⟨(c2_backspace_delete_boundary (mkBuffer ['a'] 0 0 0 4 4 0 0)).1 rfl,
   (c2_backspace_delete_boundary (mkBuffer ['a'] 1 0 0 4 4 0 0)).2.1 rfl,
   fun bb hbb =>
     ((c2_backspace_delete_boundary (mkBuffer ['a'] 1 0 0 4 4 0 0)).2.2.1
       bb hbb).1⟩

/-- C3: horizontal moves do clear the sticky column, but contrary to the
claim no edit operation clears it: `insert_ch`, `backspace` and `delete`
leave `previous_offset` exactly as it was (the source's own TODO comment on
the field concedes the missing reset). -/
theorem c3_sticky_not_cleared_by_edits (b : Buffer) (ch : Char) (dx : Nat) :
    (∀ bb, b.insert_ch ch = some bb → bb.previous_offset = b.previous_offset) ∧
    (∀ bb, b.backspace = some bb → bb.previous_offset = b.previous_offset) ∧
    (∀ bb, b.delete = some bb → bb.previous_offset = b.previous_offset) ∧
    (b.move_cursor_right dx).previous_offset = none ∧
    (b.move_cursor_left dx).previous_offset = none := by
  refine ⟨?_, ?_, ?_, rfl, rfl⟩
  · intro bb hbb
    unfold Buffer.insert_ch at hbb
    by_cases h : b.cursor_pos ≤ b.data.length
    · rw [if_pos h] at hbb
      simp only [Option.some.injEq] at hbb
      subst hbb
      rfl
    · rw [if_neg h] at hbb
      simp at hbb
  · intro bb hbb
    unfold Buffer.backspace removeAt at hbb
    by_cases h1 : 1 ≤ b.cursor_pos
    · rw [if_pos h1] at hbb
      by_cases h2 : b.cursor_pos - 1 < b.data.length
      · rw [if_pos h2] at hbb
        simp only [Option.some.injEq] at hbb
        subst hbb
        rfl
      · rw [if_neg h2] at hbb
        simp at hbb
    · rw [if_neg h1] at hbb
      simp at hbb
  · intro bb hbb
    unfold Buffer.delete removeAt at hbb
    by_cases h2 : b.cursor_pos < b.data.length
    · rw [if_pos h2] at hbb
      simp only [Option.some.injEq] at hbb
      subst hbb
      rfl
    · rw [if_neg h2] at hbb
      simp at hbb

/-- Witness for C3: a buffer over `"ab\nc"` with a remembered sticky
column of 2 (as left by a clamped vertical move) keeps
`previous_offset = some 2` across an insertion. -/
theorem c3_witness :
    ∃ bb, ({ mkBuffer ['a', 'b', '\n', 'c'] 3 0 0 4 4 0 0 with
        previous_offset := some 2 } : Buffer).insert_ch 'x' = some bb ∧
      bb.previous_offset = some 2 := by
  refine ⟨_, rfl, ?_⟩
  exact (c3_sticky_not_cleared_by_edits
    ({ mkBuffer ['a', 'b', '\n', 'c'] 3 0 0 4 4 0 0 with
        previous_offset := some 2 }) 'x' 0).1 _ rfl

/-- C4 counterexample: on the one-character buffer `"a"` with the cursor at
0, `move_cursor_right 2` does not land at the boundary `len(data) = 1` as
the claim states, and symmetrically `move_cursor_left 2` from position 1
does not land at 0: out-of-range deltas are ignored, not truncated. -/
theorem c4_counterexample :
    ((mkBuffer ['a'] 0 0 0 4 4 0 0).move_cursor_right 2).cursor_pos ≠
        (mkBuffer ['a'] 0 0 0 4 4 0 0).data.length ∧
    ((mkBuffer ['a'] 1 0 0 4 4 0 0).move_cursor_left 2).cursor_pos ≠ 0 := by
  decide

/-- C4 amended: `move_cursor_right` and `move_cursor_left` keep
`cursor_pos` within `[0, len(data)]` and never fail, but a delta that would
cross the boundary leaves the cursor unchanged (a silent no-op) instead of
truncating the move so the cursor lands at the boundary; both always clear
the sticky column. -/
theorem c4_move_horizontal_clamps (b : Buffer) (dx : Nat)
    (h : b.cursor_pos ≤ b.data.length) :
    (b.move_cursor_right dx).cursor_pos =
      (if b.cursor_pos + dx ≤ b.data.length then b.cursor_pos + dx
       else b.cursor_pos) ∧
    (b.move_cursor_right dx).cursor_pos ≤ b.data.length ∧
    (b.move_cursor_left dx).cursor_pos =
      (if dx ≤ b.cursor_pos then b.cursor_pos - dx else b.cursor_pos) ∧
    (b.move_cursor_left dx).cursor_pos ≤ b.data.length ∧
    (b.move_cursor_right dx).previous_offset = none ∧
    (b.move_cursor_left dx).previous_offset = none := by
  unfold Buffer.move_cursor_right Buffer.move_cursor_left
  by_cases hr : b.cursor_pos + dx ≤ b.data.length <;>
    by_cases hl : dx ≤ b.cursor_pos <;>
      simp [hr, hl] <;> omega

/-- Witness for C4: on the buffer `"a"` with the cursor at 0, a move right
by 2 is a no-op that stays in bounds and clears the sticky column. -/
theorem c4_witness :
    ((mkBuffer ['a'] 0 0 0 4 4 0 0).move_cursor_right 2).cursor_pos =
      (if 0 + 2 ≤ 1 then 0 + 2 else 0) ∧
    ((mkBuffer ['a'] 0 0 0 4 4 0 0).move_cursor_right 2).cursor_pos ≤ 1 := by
  have h := c4_move_horizontal_clamps (mkBuffer ['a'] 0 0 0 4 4 0 0) 2
    (by decide)
  exact ⟨h.1, h.2.1⟩

/-- Under the two lower bounds that make its subtractions safe, `scroll`
never panics and equals its total functional form. -/
theorem scroll_eq_total (b : Buffer) (cx cy : Int)
    (hxy : b.cursor_xy = some (cx, cy))
    (hA : -(b.offset_y : Int) ≤ cy - (b.y : Int))
    (hB : -(b.offset_x : Int) ≤ cx - (b.x : Int)) :
    b.scroll = some (scrollTotal b cx cy) := by
  unfold Buffer.scroll scrollTotal
  rw [hxy]
  dsimp only
  by_cases hy1 : cy - (b.y : Int) < 0
  · simp only [if_pos hy1,
      if_pos (show (-(cy - (b.y : Int))).toNat ≤ b.offset_y by omega)]
    by_cases hx1 : cx - (b.x : Int) < 0
    · simp only [if_pos hx1,
        if_pos (show (-(cx - (b.x : Int))).toNat ≤ b.offset_x by omega)]
    · simp only [if_neg hx1]
      by_cases hx2 : (b.width : Int) ≤ cx - (b.x : Int)
      · simp only [if_pos hx2]
      · simp only [if_neg hx2]
  · simp only [if_neg hy1]
    by_cases hy2 : (b.height : Int) ≤ cy - (b.y : Int)
    · simp only [if_pos hy2]
      by_cases hx1 : cx - (b.x : Int) < 0
      · simp only [if_pos hx1,
          if_pos (show (-(cx - (b.x : Int))).toNat ≤ b.offset_x by omega)]
      · simp only [if_neg hx1]
        by_cases hx2 : (b.width : Int) ≤ cx - (b.x : Int)
        · simp only [if_pos hx2]
        · simp only [if_neg hx2]
    · simp only [if_neg hy2]
      by_cases hx1 : cx - (b.x : Int) < 0
      · simp only [if_pos hx1,
          if_pos (show (-(cx - (b.x : Int))).toNat ≤ b.offset_x by omega)]
      · simp only [if_neg hx1]
        by_cases hx2 : (b.width : Int) ≤ cx - (b.x : Int)
        · simp only [if_pos hx2]
        · simp only [if_neg hx2]

/-- For any buffer whose line index was recomputed from its data,
`cursor_xy` succeeds and both relative coordinates are bounded below by the
negated scroll offsets, which is exactly what makes the subtractions in
`scroll` safe. -/
theorem cursor_xy_bounds (b : Buffer) (h : b.lines = recalcLines b.data) :
    ∃ cx cy, b.cursor_xy = some (cx, cy) ∧
      -(b.offset_y : Int) ≤ cy - (b.y : Int) ∧
      -(b.offset_x : Int) ≤ cx - (b.x : Int) := by
  unfold Buffer.cursor_xy
  cases hf : findLineY b.lines b.cursor_pos 0 with
  | some p =>
    obtain ⟨l, yv⟩ := p
    obtain ⟨k, hk, _, hstart, _, _⟩ := findLineY_spec _ _ _ _ _ hf
    refine ⟨_, _, rfl, ?_, ?_⟩
    · omega
    · have : (l.start : Int) ≤ (b.cursor_pos : Int) := by exact_mod_cast hstart
      omega
  | none =>
    obtain ⟨p, e, hlast, hpe, _⟩ := recalcLines_last_ok b.data
    rw [← h] at hlast
    rw [hlast]
    have hlen : 1 ≤ b.lines.length := by
      rw [h]
      exact List.length_pos.mpr (recalcLines_ne_nil b.data)
    refine ⟨_, _, rfl, ?_, ?_⟩
    · omega
    · show -(b.offset_x : Int) ≤
        ((e : Int) - (p : Int) + 1 + (b.x : Int)) - (b.x : Int)
      omega

/-- C5: for every buffer whose line index was recomputed from its data (any
state reachable by moves and edits followed by the recalculation), `scroll`
never panics: the `assert!` on `offset_y` holds, the unguarded `offset_x`
subtraction never underflows, and when a relative cursor coordinate is
negative by `d` the corresponding offset is decreased exactly by `d`,
landing at a value that is still at least 0. -/
theorem c5_scroll_offsets_never_negative (b : Buffer)
    (h : b.lines = recalcLines b.data) :
    ∃ bb cx cy, b.cursor_xy = some (cx, cy) ∧ b.scroll = some bb ∧
      (cy - (b.y : Int) < 0 →
        (bb.offset_y : Int) = (b.offset_y : Int) + (cy - (b.y : Int)) ∧
        0 ≤ (b.offset_y : Int) + (cy - (b.y : Int))) ∧
      (cx - (b.x : Int) < 0 →
        (bb.offset_x : Int) = (b.offset_x : Int) + (cx - (b.x : Int)) ∧
        0 ≤ (b.offset_x : Int) + (cx - (b.x : Int))) := by
  obtain ⟨cx, cy, hxy, hA, hB⟩ := cursor_xy_bounds b h
  refine ⟨scrollTotal b cx cy, cx, cy, hxy, scroll_eq_total b cx cy hxy hA hB,
    ?_, ?_⟩
  · intro hy
    unfold scrollTotal
    simp only [if_pos hy]
    constructor <;> omega
  · intro hx
    unfold scrollTotal
    simp only [if_pos hx]
    constructor <;> omega

/-- Witness for C5: a buffer over `"ab"` scrolled far out (both offsets 5)
with the cursor at 0 scrolls back without panicking, landing with both
offsets at 0. -/
theorem c5_witness :
    ∃ bb cx cy,
      (mkBuffer ['a', 'b'] 0 0 0 3 3 5 5).cursor_xy = some (cx, cy) ∧
      (mkBuffer ['a', 'b'] 0 0 0 3 3 5 5).scroll = some bb :=
  match c5_scroll_offsets_never_negative (mkBuffer ['a', 'b'] 0 0 0 3 3 5 5)
    rfl with
  | ⟨bb, cx, cy, hxy, hs, _, _⟩ => ⟨bb, cx, cy, hxy, hs⟩

/-- Integer values of the offsets produced by the total form of `scroll`,
under the same safety bounds. -/
theorem scrollTotal_offset_vals (b : Buffer) (cx cy : Int)
    (hA : -(b.offset_y : Int) ≤ cy - (b.y : Int))
    (hB : -(b.offset_x : Int) ≤ cx - (b.x : Int)) :
    ((scrollTotal b cx cy).offset_y : Int) =
      (if cy - (b.y : Int) < 0 then (b.offset_y : Int) + (cy - (b.y : Int))
       else if (b.height : Int) ≤ cy - (b.y : Int) then
         (b.offset_y : Int) + (cy - (b.y : Int)) - (b.height : Int) + 1
       else (b.offset_y : Int)) ∧
    ((scrollTotal b cx cy).offset_x : Int) =
      (if cx - (b.x : Int) < 0 then (b.offset_x : Int) + (cx - (b.x : Int))
       else if (b.width : Int) ≤ cx - (b.x : Int) then
         (b.offset_x : Int) + (cx - (b.x : Int)) - (b.width : Int) + 1
       else (b.offset_x : Int)) := by
  unfold scrollTotal
  constructor
  · show ((if cy - (b.y : Int) < 0 then b.offset_y - (-(cy - (b.y : Int))).toNat
      else if (b.height : Int) ≤ cy - (b.y : Int) then
        b.offset_y + ((cy - (b.y : Int)) - (b.height : Int) + 1).toNat
      else b.offset_y : Nat) : Int) = _
    split_ifs <;> omega
  · show ((if cx - (b.x : Int) < 0 then b.offset_x - (-(cx - (b.x : Int))).toNat
      else if (b.width : Int) ≤ cx - (b.x : Int) then
        b.offset_x + ((cx - (b.x : Int)) - (b.width : Int) + 1).toNat
      else b.offset_x : Nat) : Int) = _
    split_ifs <;> omega

/-- C8 counterexample: on the buffer `"abc"` with viewport width 2,
height 1, zero offsets and the legal cursor position 3 (= `len(data)`),
`scroll()` succeeds but the cursor's screen x coordinate afterwards is 3,
which is not inside `[x, x + width) = [0, 2)`: the claim fails at the
end-of-buffer position, where `cursor_xy` ignores `offset_x`. -/
theorem c8_counterexample :
    ((mkBuffer ['a', 'b', 'c'] 3 0 0 2 1 0 0).scroll.bind Buffer.cursor_xy)
        = some (3, 0) ∧
    ¬((3 : Int) <
      ((mkBuffer ['a', 'b', 'c'] 3 0 0 2 1 0 0).x : Int) +
        ((mkBuffer ['a', 'b', 'c'] 3 0 0 2 1 0 0).width : Int)) := by
  constructor
  · decide
  · decide

/-- C8 amended: whenever the viewport is at least 1 wide and 1 tall and the
cursor position is covered by a line span (in particular whenever
`cursor_pos < len(data)`; the uncovered case is exactly the end-of-buffer
fallthrough of `cursor_xy`), the screen coordinates after `scroll()` lie
within `[x, x + width)` and `[y, y + height)`. -/
theorem c8_scroll_containment (b : Buffer) (l : Line) (yv : Int)
    (hw : 1 ≤ b.width) (hh : 1 ≤ b.height)
    (hfind : findLineY b.lines b.cursor_pos 0 = some (l, yv)) :
    ∃ bb cx cy, b.scroll = some bb ∧ bb.cursor_xy = some (cx, cy) ∧
      (b.x : Int) ≤ cx ∧ cx < (b.x : Int) + (b.width : Int) ∧
      (b.y : Int) ≤ cy ∧ cy < (b.y : Int) + (b.height : Int) := by
  obtain ⟨k, hk, _, hstart, _, _⟩ := findLineY_spec _ _ _ _ _ hfind
  have hxy : b.cursor_xy = some
      ((b.cursor_pos : Int) - (l.start : Int) - (b.offset_x : Int) + (b.x : Int),
       yv - (b.offset_y : Int) + (b.y : Int)) := by
    unfold Buffer.cursor_xy
    rw [hfind]
  have hA : -(b.offset_y : Int) ≤
      (yv - (b.offset_y : Int) + (b.y : Int)) - (b.y : Int) := by omega
  have hB : -(b.offset_x : Int) ≤
      ((b.cursor_pos : Int) - (l.start : Int) - (b.offset_x : Int) + (b.x : Int))
        - (b.x : Int) := by omega
  have hs := scroll_eq_total b _ _ hxy hA hB
  have hvals := scrollTotal_offset_vals b _ _ hA hB
  set bb := scrollTotal b
    ((b.cursor_pos : Int) - (l.start : Int) - (b.offset_x : Int) + (b.x : Int))
    (yv - (b.offset_y : Int) + (b.y : Int)) with hbb
  have hfind2 : findLineY bb.lines bb.cursor_pos 0 = some (l, yv) := hfind
  have hxy2 : bb.cursor_xy = some
      ((bb.cursor_pos : Int) - (l.start : Int) - (bb.offset_x : Int) + (bb.x : Int),
       yv - (bb.offset_y : Int) + (bb.y : Int)) := by
    unfold Buffer.cursor_xy
    rw [hfind2]
  have hcur : bb.cursor_pos = b.cursor_pos := rfl
  have hbx : bb.x = b.x := rfl
  have hby : bb.y = b.y := rfl
  refine ⟨bb, _, _, hs, hxy2, ?_, ?_, ?_, ?_⟩
  · rw [hcur, hbx, hvals.2]
    split_ifs <;> omega
  · rw [hcur, hbx, hvals.2]
    split_ifs <;> omega
  · rw [hby, hvals.1]
    split_ifs <;> omega
  · rw [hby, hvals.1]
    split_ifs <;> omega

/-- Witness for C8: buffer `"ab\ncd"` with a 1×1 viewport and the cursor at
position 3 (line 1, column 0); after `scroll()` the cursor's screen
coordinates are inside the viewport. -/
theorem c8_witness :
    ∃ bb cx cy, (mkBuffer ['a', 'b', '\n', 'c', 'd'] 3 0 0 1 1 0 0).scroll
        = some bb ∧
      bb.cursor_xy = some (cx, cy) ∧
      ((mkBuffer ['a', 'b', '\n', 'c', 'd'] 3 0 0 1 1 0 0).x : Int) ≤ cx ∧
      cx < ((mkBuffer ['a', 'b', '\n', 'c', 'd'] 3 0 0 1 1 0 0).x : Int) +
        ((mkBuffer ['a', 'b', '\n', 'c', 'd'] 3 0 0 1 1 0 0).width : Int) ∧
      ((mkBuffer ['a', 'b', '\n', 'c', 'd'] 3 0 0 1 1 0 0).y : Int) ≤ cy ∧
      cy < ((mkBuffer ['a', 'b', '\n', 'c', 'd'] 3 0 0 1 1 0 0).y : Int) +
        ((mkBuffer ['a', 'b', '\n', 'c', 'd'] 3 0 0 1 1 0 0).height : Int) :=
  c8_scroll_containment (mkBuffer ['a', 'b', '\n', 'c', 'd'] 3 0 0 1 1 0 0)
    ⟨3, 4⟩ 1 (by decide) (by decide) (by decide)

/-- C9 counterexample: buffer `"abc"` (single line span `[0, 2]`, line
index 0) with `offset_x = 1` and the legal cursor position 3 (= `len`).
The claimed formula gives `3 - 0 - 1 + 0 = 2`, but `cursor_xy` returns
x = 3: the end-of-buffer fallthrough ignores `offset_x`. -/
theorem c9_counterexample :
    recalcLines ['a', 'b', 'c'] = [⟨0, 2⟩] ∧
    (mkBuffer ['a', 'b', 'c'] 3 0 0 4 4 1 0).cursor_xy = some (3, 0) ∧
    (3 : Int) ≠
      ((mkBuffer ['a', 'b', 'c'] 3 0 0 4 4 1 0).cursor_pos : Int)
        - ((0 : Nat) : Int)
        - ((mkBuffer ['a', 'b', 'c'] 3 0 0 4 4 1 0).offset_x : Int)
        + ((mkBuffer ['a', 'b', 'c'] 3 0 0 4 4 1 0).x : Int) := by
  refine ⟨by decide, by decide, by decide⟩

/-- C9 amended: whenever some line span contains `cursor_pos` (i.e.
`current_line` finds a containing line, which fails only at the
end-of-buffer position `cursor_pos = len(data)`), `cursor_xy` returns
exactly `(cursor_pos - line.start - offset_x + x, line_index - offset_y
+ y)`; at the end-of-buffer fallthrough the returned x omits the
`- offset_x` term. -/
theorem c9_cursor_xy_formula (b : Buffer) (i : Nat) (l : Line)
    (hcur : b.current_line = some i) (hl : b.lines[i]? = some l) :
    b.cursor_xy = some
      ((b.cursor_pos : Int) - (l.start : Int) - (b.offset_x : Int) + (b.x : Int),
       (i : Int) - (b.offset_y : Int) + (b.y : Int)) := by
  obtain ⟨j, hj, l2, hget2, h1, h2, hmin⟩ :=
    currentLineAux_spec b.lines b.cursor_pos 0 i hcur
  have hji : j = i := by omega
  subst hji
  have hl2 : l2 = l := by
    rw [hl] at hget2
    exact (Option.some.injEq _ _).mp hget2.symm
  subst hl2
  have hf := findLineY_of b.lines b.cursor_pos 0 j l2 hget2 h1 h2 hmin
  rw [show (0 : Int) + (j : Int) = (j : Int) by ring] at hf
  unfold Buffer.cursor_xy
  rw [hf]

/-- Witness for C9: buffer `"ab\ncd"` with the cursor at position 3, which
line span `[3, 4]` (index 1) contains; `cursor_xy` returns the claimed
formula exactly. -/
theorem c9_witness :
    (mkBuffer ['a', 'b', '\n', 'c', 'd'] 3 0 0 4 4 0 0).cursor_xy = some
      (((mkBuffer ['a', 'b', '\n', 'c', 'd'] 3 0 0 4 4 0 0).cursor_pos : Int)
          - ((3 : Nat) : Int)
          - ((mkBuffer ['a', 'b', '\n', 'c', 'd'] 3 0 0 4 4 0 0).offset_x : Int)
          + ((mkBuffer ['a', 'b', '\n', 'c', 'd'] 3 0 0 4 4 0 0).x : Int),
       ((1 : Nat) : Int)
          - ((mkBuffer ['a', 'b', '\n', 'c', 'd'] 3 0 0 4 4 0 0).offset_y : Int)
          + ((mkBuffer ['a', 'b', '\n', 'c', 'd'] 3 0 0 4 4 0 0).y : Int)) :=
  c9_cursor_xy_formula (mkBuffer ['a', 'b', '\n', 'c', 'd'] 3 0 0 4 4 0 0) 1
    ⟨3, 4⟩ (by decide) (by decide)


/-- In a contiguous list of spans, a span ends strictly before any later
span starts, provided the spans strictly before the later one are proper. -/
theorem lines_mono (lines : List Line)
    (hcontig : ∀ (j : Nat) (l1 l2 : Line), lines[j]? = some l1 →
      lines[j + 1]? = some l2 → l2.start = l1.end_ + 1) :
    ∀ (j k : Nat) (lj lk : Line), j < k →
      (∀ (m : Nat) (lm : Line), m < k → lines[m]? = some lm →
        lm.start ≤ lm.end_) →
      lines[j]? = some lj → lines[k]? = some lk →
      lj.end_ < lk.start := by
  intro j k
  induction k with
  | zero => intro lj lk h _ _ _; omega
  | succ k ih =>
    intro lj lk hjk hproper hgj hgk
    have hk1 : k + 1 < lines.length := (List.getElem?_eq_some.mp hgk).1
    have hgk0 : lines[k]? = some lines[k] :=
      List.getElem?_eq_getElem (by omega)
    have hstep := hcontig k lines[k] lk hgk0 hgk
    by_cases hjeq : j = k
    · subst hjeq
      rw [hgj] at hgk0
      have heq : lj = lines[j] := (Option.some.injEq _ _).mp hgk0
      rw [heq]
      omega
    · have hrec := ih lj lines[k] (by omega)
        (fun m lm hm hgm => hproper m lm (by omega) hgm) hgj hgk0
      have hp := hproper k lines[k] (by omega) hgk0
      omega

/-- Moving down one line and then up one line restores the cursor, whether
or not the lower line was long enough for the travelling column, provided
the spans up to and including the lower line are proper (`start ≤ end`;
a degenerate target span would make `Line::len` panic instead). -/
theorem down_up_restores (b : Buffer) (cur : Nat)
    (hprev : b.previous_offset = none)
    (hcur : b.current_line = some cur)
    (hcontig : ∀ (j : Nat) (l1 l2 : Line), b.lines[j]? = some l1 →
      b.lines[j + 1]? = some l2 → l2.start = l1.end_ + 1)
    (hproper : ∀ (j : Nat) (l : Line), j ≤ cur + 1 → b.lines[j]? = some l →
      l.start ≤ l.end_)
    (hdown : cur + 1 < b.lines.length) :
    ∃ b1 b2, b.move_cursor_down 1 = some b1 ∧ b1.move_cursor_up 1 = some b2 ∧
      b2.cursor_pos = b.cursor_pos := by
  obtain ⟨j0, hj0, lcur, hgetcur, hs1, hs2, hmin⟩ :=
    currentLineAux_spec b.lines b.cursor_pos 0 cur hcur
  have hj0e : j0 = cur := by omega
  rw [hj0e] at hgetcur hmin
  have hgetnext : b.lines[cur + 1]? = some b.lines[cur + 1] :=
    List.getElem?_eq_getElem hdown
  set lnext := b.lines[cur + 1] with hlnext
  have hpc : lcur.start ≤ lcur.end_ := le_trans hs1 hs2
  have hpn : lnext.start ≤ lnext.end_ := hproper (cur + 1) lnext (le_refl _) hgetnext
  have hstep : lnext.start = lcur.end_ + 1 := hcontig cur lcur lnext hgetcur hgetnext
  by_cases hclamp : lnext.end_ - lnext.start + 1 ≤ b.cursor_pos - lcur.start
  · -- the lower line is too short: clamp and remember the column
    have hd : b.move_cursor_down 1 = some { b with
        previous_offset := some (b.cursor_pos - lcur.start),
        cursor_pos := lnext.start + (lnext.end_ - lnext.start) } := by
      simp only [Buffer.move_cursor_down, hcur, if_pos hdown, hgetcur, hprev,
        if_pos hs1, hgetnext, Line.len, if_pos hpn, if_pos hclamp,
        Nat.add_sub_cancel]
    have hminNew : ∀ (m : Nat) (lm : Line), m < cur + 1 → b.lines[m]? = some lm →
        ¬(lm.start ≤ lnext.start + (lnext.end_ - lnext.start) ∧
          lnext.start + (lnext.end_ - lnext.start) ≤ lm.end_) := by
      intro m lm hm hgm hcontra
      have := lines_mono b.lines hcontig m (cur + 1) lm lnext (by omega)
        (fun m2 lm2 hm2 hgm2 => hproper m2 lm2 (by omega) hgm2) hgm hgetnext
      omega
    have hcl1 : Buffer.current_line { b with
        previous_offset := some (b.cursor_pos - lcur.start),
        cursor_pos := lnext.start + (lnext.end_ - lnext.start) }
          = some (cur + 1) := by
      show currentLineAux b.lines
        (lnext.start + (lnext.end_ - lnext.start)) 0 = some (cur + 1)
      have := currentLineAux_of b.lines
        (lnext.start + (lnext.end_ - lnext.start)) 0 (cur + 1) lnext
        hgetnext (by omega) (by omega) hminNew
      simpa using this
    have hu : Buffer.move_cursor_up { b with
        previous_offset := some (b.cursor_pos - lcur.start),
        cursor_pos := lnext.start + (lnext.end_ - lnext.start) } 1
        = some { b with
            previous_offset := some (b.cursor_pos - lcur.start),
            cursor_pos := lcur.start + (b.cursor_pos - lcur.start) } := by
      simp only [Buffer.move_cursor_up, hcl1, if_pos (show 1 ≤ cur + 1 by omega),
        Nat.add_sub_cancel, hgetcur, hgetnext, Line.len, if_pos hpc,
        if_neg (show ¬(lcur.end_ - lcur.start + 1 ≤ b.cursor_pos - lcur.start)
          by omega)]
    refine ⟨_, _, hd, hu, ?_⟩
    show lcur.start + (b.cursor_pos - lcur.start) = b.cursor_pos
    omega
  · -- the lower line is long enough: the column fits exactly
    have hd : b.move_cursor_down 1 = some { b with
        previous_offset := none,
        cursor_pos := lnext.start + (b.cursor_pos - lcur.start) } := by
      simp only [Buffer.move_cursor_down, hcur, if_pos hdown, hgetcur, hprev,
        if_pos hs1, hgetnext, Line.len, if_pos hpn, if_neg hclamp]
    have hminNew : ∀ (m : Nat) (lm : Line), m < cur + 1 → b.lines[m]? = some lm →
        ¬(lm.start ≤ lnext.start + (b.cursor_pos - lcur.start) ∧
          lnext.start + (b.cursor_pos - lcur.start) ≤ lm.end_) := by
      intro m lm hm hgm hcontra
      have := lines_mono b.lines hcontig m (cur + 1) lm lnext (by omega)
        (fun m2 lm2 hm2 hgm2 => hproper m2 lm2 (by omega) hgm2) hgm hgetnext
      omega
    have hcl1 : Buffer.current_line { b with
        previous_offset := none,
        cursor_pos := lnext.start + (b.cursor_pos - lcur.start) }
          = some (cur + 1) := by
      show currentLineAux b.lines
        (lnext.start + (b.cursor_pos - lcur.start)) 0 = some (cur + 1)
      have := currentLineAux_of b.lines
        (lnext.start + (b.cursor_pos - lcur.start)) 0 (cur + 1) lnext
        hgetnext (by omega) (by omega) hminNew
      simpa using this
    have hu : Buffer.move_cursor_up { b with
        previous_offset := none,
        cursor_pos := lnext.start + (b.cursor_pos - lcur.start) } 1
        = some { b with
            previous_offset := none,
            cursor_pos := lcur.start +
              (lnext.start + (b.cursor_pos - lcur.start) - lnext.start) } := by
      simp only [Buffer.move_cursor_up, hcl1, if_pos (show 1 ≤ cur + 1 by omega),
        Nat.add_sub_cancel, hgetcur, hgetnext,
        if_pos (show lnext.start ≤ lnext.start + (b.cursor_pos - lcur.start)
          by omega),
        Line.len, if_pos hpc,
        if_neg (show ¬(lcur.end_ - lcur.start + 1 ≤
          lnext.start + (b.cursor_pos - lcur.start) - lnext.start) by omega)]
    refine ⟨_, _, hd, hu, ?_⟩
    show lcur.start + (lnext.start + (b.cursor_pos - lcur.start) - lnext.start)
      = b.cursor_pos
    omega

/-- Moving up one line and then down one line restores the cursor, whether
or not the upper line was long enough for the travelling column, provided
the spans strictly before the cursor's line are proper. -/
theorem up_down_restores (b : Buffer) (cur : Nat)
    (hprev : b.previous_offset = none)
    (hcur : b.current_line = some cur)
    (hcontig : ∀ (j : Nat) (l1 l2 : Line), b.lines[j]? = some l1 →
      b.lines[j + 1]? = some l2 → l2.start = l1.end_ + 1)
    (hproper : ∀ (j : Nat) (l : Line), j < cur → b.lines[j]? = some l →
      l.start ≤ l.end_)
    (hup : 1 ≤ cur) :
    ∃ b1 b2, b.move_cursor_up 1 = some b1 ∧ b1.move_cursor_down 1 = some b2 ∧
      b2.cursor_pos = b.cursor_pos := by
  obtain ⟨j0, hj0, lcur, hgetcur, hs1, hs2, hmin⟩ :=
    currentLineAux_spec b.lines b.cursor_pos 0 cur hcur
  have hj0e : j0 = cur := by omega
  rw [hj0e] at hgetcur hmin
  have hlencur : cur < b.lines.length := (List.getElem?_eq_some.mp hgetcur).1
  have hgetprev : b.lines[cur - 1]? = some b.lines[cur - 1] :=
    List.getElem?_eq_getElem (by omega)
  set lprev := b.lines[cur - 1] with hlprev
  have hpc : lcur.start ≤ lcur.end_ := le_trans hs1 hs2
  have hpp : lprev.start ≤ lprev.end_ := hproper (cur - 1) lprev (by omega) hgetprev
  have hstep : lcur.start = lprev.end_ + 1 := by
    refine hcontig (cur - 1) lprev lcur hgetprev ?_
    rw [show cur - 1 + 1 = cur by omega]
    exact hgetcur
  by_cases hclamp : lprev.end_ - lprev.start + 1 ≤ b.cursor_pos - lcur.start
  · -- the upper line is too short: clamp and remember the column
    have hu : b.move_cursor_up 1 = some { b with
        previous_offset := some (b.cursor_pos - lcur.start),
        cursor_pos := lprev.start + (lprev.end_ - lprev.start) } := by
      simp only [Buffer.move_cursor_up, hcur, if_pos hup, hgetcur, hprev,
        if_pos hs1, hgetprev, Line.len, if_pos hpp, if_pos hclamp,
        Nat.add_sub_cancel]
    have hminNew : ∀ (m : Nat) (lm : Line), m < cur - 1 → b.lines[m]? = some lm →
        ¬(lm.start ≤ lprev.start + (lprev.end_ - lprev.start) ∧
          lprev.start + (lprev.end_ - lprev.start) ≤ lm.end_) := by
      intro m lm hm hgm hcontra
      have := lines_mono b.lines hcontig m (cur - 1) lm lprev (by omega)
        (fun m2 lm2 hm2 hgm2 => hproper m2 lm2 (by omega) hgm2) hgm hgetprev
      omega
    have hcl1 : Buffer.current_line { b with
        previous_offset := some (b.cursor_pos - lcur.start),
        cursor_pos := lprev.start + (lprev.end_ - lprev.start) }
          = some (cur - 1) := by
      show currentLineAux b.lines
        (lprev.start + (lprev.end_ - lprev.start)) 0 = some (cur - 1)
      have := currentLineAux_of b.lines
        (lprev.start + (lprev.end_ - lprev.start)) 0 (cur - 1) lprev
        hgetprev (by omega) (by omega) hminNew
      simpa using this
    have hd : Buffer.move_cursor_down { b with
        previous_offset := some (b.cursor_pos - lcur.start),
        cursor_pos := lprev.start + (lprev.end_ - lprev.start) } 1
        = some { b with
            previous_offset := some (b.cursor_pos - lcur.start),
            cursor_pos := lcur.start + (b.cursor_pos - lcur.start) } := by
      simp only [Buffer.move_cursor_down, hcl1,
        show cur - 1 + 1 = cur from by omega, if_pos hlencur,
        hgetprev, hgetcur, Line.len, if_pos hpc,
        if_neg (show ¬(lcur.end_ - lcur.start + 1 ≤ b.cursor_pos - lcur.start)
          by omega)]
    refine ⟨_, _, hu, hd, ?_⟩
    show lcur.start + (b.cursor_pos - lcur.start) = b.cursor_pos
    omega
  · -- the upper line is long enough: the column fits exactly
    have hu : b.move_cursor_up 1 = some { b with
        previous_offset := none,
        cursor_pos := lprev.start + (b.cursor_pos - lcur.start) } := by
      simp only [Buffer.move_cursor_up, hcur, if_pos hup, hgetcur, hprev,
        if_pos hs1, hgetprev, Line.len, if_pos hpp, if_neg hclamp]
    have hminNew : ∀ (m : Nat) (lm : Line), m < cur - 1 → b.lines[m]? = some lm →
        ¬(lm.start ≤ lprev.start + (b.cursor_pos - lcur.start) ∧
          lprev.start + (b.cursor_pos - lcur.start) ≤ lm.end_) := by
      intro m lm hm hgm hcontra
      have := lines_mono b.lines hcontig m (cur - 1) lm lprev (by omega)
        (fun m2 lm2 hm2 hgm2 => hproper m2 lm2 (by omega) hgm2) hgm hgetprev
      omega
    have hcl1 : Buffer.current_line { b with
        previous_offset := none,
        cursor_pos := lprev.start + (b.cursor_pos - lcur.start) }
          = some (cur - 1) := by
      show currentLineAux b.lines
        (lprev.start + (b.cursor_pos - lcur.start)) 0 = some (cur - 1)
      have := currentLineAux_of b.lines
        (lprev.start + (b.cursor_pos - lcur.start)) 0 (cur - 1) lprev
        hgetprev (by omega) (by omega) hminNew
      simpa using this
    have hd : Buffer.move_cursor_down { b with
        previous_offset := none,
        cursor_pos := lprev.start + (b.cursor_pos - lcur.start) } 1
        = some { b with
            previous_offset := none,
            cursor_pos := lcur.start +
              (lprev.start + (b.cursor_pos - lcur.start) - lprev.start) } := by
      simp only [Buffer.move_cursor_down, hcl1,
        show cur - 1 + 1 = cur from by omega, if_pos hlencur,
        hgetprev, hgetcur,
        if_pos (show lprev.start ≤ lprev.start + (b.cursor_pos - lcur.start)
          by omega),
        Line.len, if_pos hpc,
        if_neg (show ¬(lcur.end_ - lcur.start + 1 ≤
          lprev.start + (b.cursor_pos - lcur.start) - lprev.start) by omega)]
    refine ⟨_, _, hu, hd, ?_⟩
    show lcur.start + (lprev.start + (b.cursor_pos - lcur.start) - lprev.start)
      = b.cursor_pos
    omega

/-- C7 counterexample: on the newline-terminated buffer `"ab\n"` with the
cursor at 0 (column 0 of the only real line), moving down targets the
degenerate final span `[3, 2]`; the claim says the shorter intermediate
line clamps the cursor and remembers the column, but `Line::len` computes
`end - start + 1 = 2 - 3 + 1` and the `usize` subtraction underflows, so
the move panics (`none`) and the down-then-up round trip never completes. -/
theorem c7_counterexample :
    (mkBuffer ['a', 'b', '\n'] 0 0 0 4 4 0 0).move_cursor_down 1 = none := by
  decide

/-- C7 amended: with no remembered sticky column and a contiguous line
index, moving down one line then up one line restores the original
`cursor_pos` whenever a line below exists and the spans up to and
including it are proper (`start ≤ end`), and symmetrically up then down
whenever a line above exists and the spans before the cursor's line are
proper — exactly when the neighbouring line is at least as long as the
original column, and via the remembered sticky column when it is shorter
(nothing is assumed about the neighbour's length, so both cases are
covered).  When the vertical move targets the degenerate final span of a
newline-terminated buffer, the move panics in `Line::len` instead of
clamping. -/
theorem c7_sticky_column_round_trip (b : Buffer) (cur : Nat)
    (hprev : b.previous_offset = none)
    (hcur : b.current_line = some cur)
    (hchain : List.Chain' (fun a c => c.start = a.end_ + 1) b.lines) :
    (cur + 1 < b.lines.length →
      (∀ (j : Nat) (l : Line), j ≤ cur + 1 → b.lines[j]? = some l →
        l.start ≤ l.end_) →
      ∃ b1 b2, b.move_cursor_down 1 = some b1 ∧
        b1.move_cursor_up 1 = some b2 ∧ b2.cursor_pos = b.cursor_pos) ∧
    (1 ≤ cur →
      (∀ (j : Nat) (l : Line), j < cur → b.lines[j]? = some l →
        l.start ≤ l.end_) →
      ∃ b1 b2, b.move_cursor_up 1 = some b1 ∧
        b1.move_cursor_down 1 = some b2 ∧ b2.cursor_pos = b.cursor_pos) := by
  have hcontig : ∀ (j : Nat) (l1 l2 : Line), b.lines[j]? = some l1 →
      b.lines[j + 1]? = some l2 → l2.start = l1.end_ + 1 := by
    intro j l1 l2 h1 h2
    have hlen : j + 1 < b.lines.length := (List.getElem?_eq_some.mp h2).1
    have hR := List.chain'_iff_get.mp hchain j (by omega)
    simp only [List.get_eq_getElem] at hR
    obtain ⟨_, e1⟩ := List.getElem?_eq_some.mp h1
    obtain ⟨_, e2⟩ := List.getElem?_eq_some.mp h2
    rw [e1, e2] at hR
    exact hR
  exact ⟨fun hdown hproper =>
      down_up_restores b cur hprev hcur hcontig hproper hdown,
    fun hup hproper =>
      up_down_restores b cur hprev hcur hcontig hproper hup⟩

/-- Witness for C7: the newline-terminated buffer `"a\nb\nc\n"` with the
cursor at position 2 (start of the middle line); its index ends with the
degenerate span `[6, 5]`, yet down-then-up and up-then-down both restore
the cursor because neither move touches that span. -/
theorem c7_witness :
    (∃ b1 b2,
      (mkBuffer ['a', '\n', 'b', '\n', 'c', '\n'] 2 0 0 4 4 0 0).move_cursor_down 1
          = some b1 ∧
        b1.move_cursor_up 1 = some b2 ∧
        b2.cursor_pos
          = (mkBuffer ['a', '\n', 'b', '\n', 'c', '\n'] 2 0 0 4 4 0 0).cursor_pos) ∧
    (∃ b1 b2,
      (mkBuffer ['a', '\n', 'b', '\n', 'c', '\n'] 2 0 0 4 4 0 0).move_cursor_up 1
          = some b1 ∧
        b1.move_cursor_down 1 = some b2 ∧
        b2.cursor_pos
          = (mkBuffer ['a', '\n', 'b', '\n', 'c', '\n'] 2 0 0 4 4 0 0).cursor_pos) := by
  have h := c7_sticky_column_round_trip
    (mkBuffer ['a', '\n', 'b', '\n', 'c', '\n'] 2 0 0 4 4 0 0) 1 rfl (by decide)
    (by
      rw [show (mkBuffer ['a', '\n', 'b', '\n', 'c', '\n'] 2 0 0 4 4 0 0).lines
          = [⟨0, 1⟩, ⟨2, 3⟩, ⟨4, 5⟩, ⟨6, 5⟩] from by decide]
      simp [List.chain'_cons])
  refine ⟨h.1 (by decide) ?_, h.2 (by decide) ?_⟩
  · intro j l hj hget
    rw [show (mkBuffer ['a', '\n', 'b', '\n', 'c', '\n'] 2 0 0 4 4 0 0).lines
        = [⟨0, 1⟩, ⟨2, 3⟩, ⟨4, 5⟩, ⟨6, 5⟩] from by decide] at hget
    interval_cases j <;> (simp at hget; subst hget; decide)
  · intro j l hj hget
    rw [show (mkBuffer ['a', '\n', 'b', '\n', 'c', '\n'] 2 0 0 4 4 0 0).lines
        = [⟨0, 1⟩, ⟨2, 3⟩, ⟨4, 5⟩, ⟨6, 5⟩] from by decide] at hget
    interval_cases j
    simp at hget
    subst hget
    decide

/-- C10: `from_file` on an existing directory yields empty data with no
file path, so a subsequent `save` performs no write at all; on a
nonexistent path or an unreadable regular file it yields empty data with
the path attached; and data actually read from a file never contains a
carriage-return character (CRLF normalization strips them all). -/
theorem c10_from_file_behavior (path : String) (x y w h : Nat) :
    ((Buffer.from_file .dir path x y w h).data = [] ∧
     (Buffer.from_file .dir path x y w h).file_path = none ∧
     (Buffer.from_file .dir path x y w h).save = none) ∧
    ((Buffer.from_file .other path x y w h).data = [] ∧
     (Buffer.from_file .other path x y w h).file_path = some path) ∧
    ((Buffer.from_file (.file none) path x y w h).data = [] ∧
     (Buffer.from_file (.file none) path x y w h).file_path = some path) ∧
    (∀ bytes : List (Fin 256),
      '\r' ∉ (Buffer.from_file (.file (some bytes)) path x y w h).data) := by
  refine ⟨⟨rfl, rfl, rfl⟩, ⟨rfl, rfl⟩, ⟨rfl, rfl⟩, ?_⟩
  intro bytes hmem
  have hp := (List.mem_filter.mp hmem).2
  simp at hp

/-- Witness for C10: a directory path gives a buffer whose `save` writes
nothing, and a file whose bytes include a carriage return (13) yields data
without it. -/
theorem c10_witness :
    (Buffer.from_file .dir "somedir" 0 0 4 4).save = none ∧
    '\r' ∉ (Buffer.from_file
      (.file (some [(13 : Fin 256), (97 : Fin 256)])) "f.txt" 0 0 4 4).data :=
  ⟨(c10_from_file_behavior "somedir" 0 0 4 4).1.2.2,
   (c10_from_file_behavior "f.txt" 0 0 4 4).2.2.2 [(13 : Fin 256), (97 : Fin 256)]⟩
